import Mathlib

/-!
Verification of the `orm` repository (Go) against its natural-language
specification.  Each Go function relevant to the frozen claims is embedded
shallowly: pure string manipulation is modelled on `List Char`, stateful
code by explicit state passing, fallible calls by `Option`/`Except`-style
results, and external I/O (MySQL / Redis / RabbitMQ drivers) by oracle
parameters that choose each call's outcome.
-/

namespace Spec2Proof

/-! ## Go `strings` primitives (`strings.Index`, `Repeat`, `TrimLeft`, …)

The sources only manipulate ASCII SQL fragments, where Go's byte indexing
and rune indexing coincide, so strings are modelled as `List Char`. -/

/-- `isPre pat s` is true when `pat` is a prefix of `s` (Go `strings.HasPrefix s pat`). -/
def isPre : List Char → List Char → Bool
  | [], _ => true
  | _ :: _, [] => false
  | a :: as, b :: bs => a == b && isPre as bs

/-- Index of the first occurrence of `pat` in `s`, if any
(Go `strings.Index s pat`, with `none` for Go's `-1`). -/
def strIndexChars (pat : List Char) : List Char → Option Nat
  | [] => if isPre pat [] then some 0 else none
  | c :: t => if isPre pat (c :: t) then some 0 else (strIndexChars pat t).map (· + 1)

/-- Number of occurrences of the character `c` in `l`. -/
def countChar (c : Char) (l : List Char) : Nat := l.countP (· == c)

/-- Go `strings.Repeat`: `seg` concatenated `n` times. -/
def repeatChars (seg : List Char) : Nat → List Char
  | 0 => []
  | n + 1 => seg ++ repeatChars seg n

/-- Go `strings.TrimLeft` with a one-character cut set. -/
def trimLeftChar (c : Char) : List Char → List Char
  | [] => []
  | a :: t => if a == c then trimLeftChar c t else a :: t

/-- Go `strings.TrimLeft` with an arbitrary cut set (helper for `TrimRight`). -/
def trimLeadCutset (cut : List Char) : List Char → List Char
  | [] => []
  | a :: t => if cut.contains a then trimLeadCutset cut t else a :: t

/-- Go `strings.TrimRight` with an arbitrary cut set. -/
def trimRightCutset (cut : List Char) (l : List Char) : List Char :=
  (trimLeadCutset cut l.reverse).reverse

/-! ## `where.go`: `NewWhere` and `replaceNth` -/

/-- A parameter passed to `NewWhere`: Go inspects the dynamic kind and treats
slices/arrays as collections, everything else as a scalar. -/
inductive GoParam (α : Type) where
  | scalar (v : α)
  | coll (vs : List α)
deriving Repr, DecidableEq

/-- The `where` struct of `where.go`: final query text plus flattened parameters. -/
structure WherePredicate (α : Type) where
  query : List Char
  parameters : List α
deriving Repr, DecidableEq

/-- The loop body of `replaceNth` from `where.go`: `k + 1` iterations remain
(Go's `m` ranges over `1..n`, so at loop entry `k + 1 = n - m + 1`), and `i`
is the running offset into `s`.  When `k = 0` (Go's `m == n`) the occurrence
found at `i + x` is replaced; when the pattern is absent the loop breaks and
`s` is returned unchanged. -/
def replaceNthAux (s old new : List Char) : Nat → Nat → List Char
  | 0, _ => s
  | k + 1, i =>
    match strIndexChars old (s.drop i) with
    | none => s
    | some x =>
      if k = 0 then s.take (i + x) ++ new ++ s.drop (i + x + old.length)
      else replaceNthAux s old new k (i + x + old.length)

/-- `replaceNth` from `where.go`: replace the `n`-th occurrence of `old` in `s`
by `new` (1-based `n`; for `n = 0` the Go loop body never runs). -/
def replaceNth (s old new : List Char) (n : Nat) : List Char :=
  replaceNthAux s old new n 0

/-- The `(%s)` placeholder list built by `NewWhere` for a collection of size `n`:
`strings.TrimLeft (strings.Repeat ",?" n) ","`. -/
def inPlaceholders (n : Nat) : List Char :=
  trimLeftChar ',' (repeatChars [',', '?'] n)

/-- The `for key, value := range parameters` loop of `NewWhere`: `key` is the
0-based index of the parameter in the *full* parameter list, and the
collection case calls `replaceNth query "IN ?" ("IN (…)") (key+1)`. -/
def newWhereGo {α : Type} : List Char → List (GoParam α) → Nat → List α → WherePredicate α
  | q, [], _, acc => ⟨q, acc⟩
  | q, .scalar v :: rest, key, acc => newWhereGo q rest (key + 1) (acc ++ [v])
  | q, .coll vs :: rest, key, acc =>
    let rep := "IN (".data ++ inPlaceholders vs.length ++ ")".data
    newWhereGo (replaceNth q "IN ?".data rep (key + 1)) rest (key + 1) (acc ++ vs)

/-- `NewWhere` from `where.go`. -/
def NewWhere {α : Type} (query : String) (ps : List (GoParam α)) : WherePredicate α :=
  newWhereGo query.data ps 0 []

/-- Splicing of the parameter list that `NewWhere` performs: scalars pass
through, collection elements are spliced in place. -/
def flattenParams {α : Type} : List (GoParam α) → List α
  | [] => []
  | .scalar v :: r => v :: flattenParams r
  | .coll vs :: r => vs ++ flattenParams r

theorem newWhereGo_parameters {α : Type} (ps : List (GoParam α)) :
    ∀ (q : List Char) (key : Nat) (acc : List α),
      (newWhereGo q ps key acc).parameters = acc ++ flattenParams ps := by
  induction ps with
  | nil => intro q key acc; simp [newWhereGo, flattenParams]
  | cons p rest ih =>
    intro q key acc
    cases p with
    | scalar v => simp [newWhereGo, flattenParams, ih]
    | coll vs => simp [newWhereGo, flattenParams, ih]

theorem countChar_append (c : Char) (a b : List Char) :
    countChar c (a ++ b) = countChar c a + countChar c b := by
  simp [countChar, List.countP_append]

theorem countChar_repeat_q (n : Nat) :
    countChar '?' (repeatChars [',', '?'] n) = n := by
  induction n with
  | zero => rfl
  | succ k ih =>
    have h : repeatChars [',', '?'] (k + 1) = ',' :: '?' :: repeatChars [',', '?'] k := rfl
    rw [h]
    simp only [countChar, List.countP_cons] at ih ⊢
    rw [ih]
    simp


theorem countChar_q_trimLeft_comma (l : List Char) :
    countChar '?' (trimLeftChar ',' l) = countChar '?' l := by
  induction l with
  | nil => rfl
  | cons a t ih =>
    by_cases h : a = ','
    · subst h; simpa [trimLeftChar, countChar] using ih
    · simp [trimLeftChar, h, countChar]

theorem countChar_inPlaceholders (n : Nat) :
    countChar '?' (inPlaceholders n) = n := by
  simp [inPlaceholders, countChar_q_trimLeft_comma, countChar_repeat_q]

theorem replaceNth_bIN (new : List Char) :
    replaceNth "b IN ?".data "IN ?".data new 1 = 'b' :: ' ' :: new := by
  show 'b' :: ' ' :: (new ++ List.drop 6 "b IN ?".data) = 'b' :: ' ' :: new
  simp

/-- C1 counterexample: the claim predicts that
`newPredicate("a=? AND b IN ?", x, xs)` yields a query whose `IN` clause is
expanded to `len(xs)` placeholders (so `1 + len(xs) = 3` placeholders in all
for `xs = [1,2]`).  In the code the collection sits at index 1 of the
parameter list, so `replaceNth` is asked for the *second* occurrence of
`IN ?`; the template has only one, hence the query is returned unchanged,
still containing the literal `IN ?` and only 2 placeholders, while the
parameter list is nevertheless spliced to length 3. -/
theorem C1_counterexample :
    (NewWhere "a=? AND b IN ?" [GoParam.scalar (7 : Int), GoParam.coll [1, 2]]).query
        = "a=? AND b IN ?".data
    ∧ (NewWhere "a=? AND b IN ?" [GoParam.scalar (7 : Int), GoParam.coll [1, 2]]).parameters
        = [7, 1, 2]
    ∧ countChar '?'
        (NewWhere "a=? AND b IN ?" [GoParam.scalar (7 : Int), GoParam.coll [1, 2]]).query = 2
    ∧ (2 : Nat) ≠ 1 + 2 :=
  ⟨rfl, rfl, rfl, by decide⟩

/-- C1 (amended): `NewWhere` leaves scalar parameters untouched and splices
each collection's elements into the final parameter list in place (so the
final list is the in-order flattening of the arguments); for a collection at
0-based index `k` of the parameter list it replaces the `(k+1)`-th occurrence
of the literal `IN ?` — not the next unused one — with `IN (?,…)` sized to
the collection.  Hence for a scalar `x` and a collection `xs`,
`newPredicate("a=? AND b IN ?", x, xs)` leaves the query unchanged (there is
no second `IN ?` occurrence) while still producing `1 + len(xs)` parameters
in matching order, and expansion with exactly `len(xs)` placeholders does
happen when the collection's index matches, e.g. `newPredicate("b IN ?", xs)`. -/
theorem C1_newWhere_amended :
    (∀ (α : Type) (q : String) (ps : List (GoParam α)),
        (NewWhere q ps).parameters = flattenParams ps)
    ∧ (∀ (x : Int) (xs : List Int),
        NewWhere "a=? AND b IN ?" [GoParam.scalar x, GoParam.coll xs]
          = ⟨"a=? AND b IN ?".data, x :: xs⟩)
    ∧ (∀ xs : List Int,
        countChar '?' (NewWhere "b IN ?" [GoParam.coll xs]).query = xs.length
        ∧ (NewWhere "b IN ?" [GoParam.coll xs]).parameters = xs) := by
  refine ⟨?_, ?_, ?_⟩
  · intro α q ps
    simpa using newWhereGo_parameters ps q.data 0 []
  · intro x xs
    rfl
  · intro xs
    constructor
    · have h1 : (NewWhere "b IN ?" [GoParam.coll xs]).query
          = 'b' :: ' ' :: ("IN (".data ++ inPlaceholders xs.length ++ ")".data) :=
        replaceNth_bIN _
      rw [h1]
      simp only [countChar, List.countP_cons, countChar_append]
      have h2 : countChar '?' "IN (".data = 0 := by decide
      have h3 : countChar '?' ")".data = 0 := by decide
      simp only [countChar] at h2 h3
      rw [List.countP_append, List.countP_append, h2, h3]
      have h4 := countChar_inPlaceholders xs.length
      simp only [countChar] at h4
      rw [h4]
      simp
    · rfl

/-! ## Shared cache client (`RedisCache.GetSet`, `Get`, `Set`)

The Redis store is modelled as an association list from keys to
`(value, ttlSeconds)`; `Get`/`Set` never fail in the model (connection
errors are outside the claims).  Values round-trip through Go's
`encoding/json`: `json.Marshal` of an `int` or a whole `float64` prints the
digits, and `json.Unmarshal` into `interface {}` yields `float64` for any
JSON number and `string` for a JSON string — so decoding is *not* a left
inverse of encoding on `int` values. -/

/-- A dynamic Go value as seen by `encoding/json` (restricted to the shapes
relevant to `GetSet`): an `int`, a whole `float64`, or a `string`. -/
inductive GoVal where
  | vint (n : Int)
  | vfloat (n : Int)
  | vstr (s : String)
deriving Repr, DecidableEq

/-- Go `json.Marshal` on the modelled values. -/
def jsonMarshal : GoVal → String
  | .vint n => toString n
  | .vfloat n => toString n
  | .vstr s => "\"" ++ s ++ "\""

/-- Numeric value of an ASCII digit. -/
def digitVal (c : Char) : Option Nat :=
  if '0' ≤ c ∧ c ≤ '9' then some (c.toNat - '0'.toNat) else none

/-- Decimal parser for the digit strings produced by `jsonMarshal`. -/
def parseNatAux : List Char → Nat → Option Nat
  | [], acc => some acc
  | c :: t, acc =>
    match digitVal c with
    | none => none
    | some d => parseNatAux t (acc * 10 + d)

/-- Parse an optionally negated decimal integer. -/
def parseDecimalInt : List Char → Option Int
  | [] => none
  | '-' :: rest => if rest.isEmpty then none else (parseNatAux rest 0).map (fun n => -(n : Int))
  | l => (parseNatAux l 0).map Int.ofNat

/-- Go `json.Unmarshal` into `interface {}`: JSON strings decode to `string`,
JSON numbers decode to `float64` (never back to `int`). -/
def jsonUnmarshalAny (s : String) : Option GoVal :=
  match s.data with
  | '"' :: rest =>
    if rest.getLast? = some '"' then some (.vstr ⟨rest.dropLast⟩) else none
  | l => (parseDecimalInt l).map GoVal.vfloat

/-- The Redis key space: key → (stored string, ttl in seconds). -/
abbrev RedisStore : Type := List (String × String × Int)

/-- Lookup of a key (Go `Get`, with `redis.Nil` mapped to `none`). -/
def storeLookup (st : RedisStore) (k : String) : Option (String × Int) :=
  (st.find? (fun p => p.1 == k)).map (·.2)

/-- `Set key value ttl` (the `go-redis` client overwrites any previous value). -/
def storeSet (st : RedisStore) (k v : String) (ttl : Int) : RedisStore :=
  (k, v, ttl) :: st

/-- Result of one `GetSet` call: the store afterwards, the returned value or
error, and how many times the loader (`GetSetProvider`) was invoked. -/
structure GetSetOut where
  store : RedisStore
  result : Except String GoVal
  loaderCalls : Nat

/-- `RedisCache.GetSet` from the Redis client file: `Get` the key; on a miss
invoke the provider, `json.Marshal` its result, `Set` it under the given ttl
and return the provider's value *as produced* (not re-decoded); on a hit
`json.Unmarshal` the stored string and return the decoded value. -/
def RedisGetSet (st : RedisStore) (key : String) (ttlSeconds : Int)
    (provider : Unit → GoVal) : GetSetOut :=
  match storeLookup st key with
  | none =>
    let userVal := provider ()
    let encoded := jsonMarshal userVal
    ⟨storeSet st key encoded ttlSeconds, .ok userVal, 1⟩
  | some (v, _) =>
    match jsonUnmarshalAny v with
    | none => ⟨st, .error "json unmarshal error", 0⟩
    | some data => ⟨st, .ok data, 0⟩

/-- C8 counterexample: the claim says that on a miss `GetSet` "returns the
decoded value".  Start from an empty store with a loader returning the Go
`int` 3: the call stores `"3"` but returns the `int` itself, while decoding
the stored string yields `float64(3)` — a different dynamic value.  So the
returned value is the loader's result, not the decoded value. -/
theorem C8_counterexample :
    (RedisGetSet [] "k" 10 (fun _ => .vint 3)).result = .ok (.vint 3)
    ∧ storeLookup (RedisGetSet [] "k" 10 (fun _ => .vint 3)).store "k" = some ("3", 10)
    ∧ jsonUnmarshalAny "3" = some (.vfloat 3)
    ∧ GoVal.vint 3 ≠ GoVal.vfloat 3 := by
  refine ⟨rfl, by decide, by decide, by decide⟩

/-- C8 (amended): for every key, ttl and loader, `GetSet` returns the
JSON-decoded cached value when the key is present (without touching the
store or the loader); when the key is absent it invokes the loader exactly
once, JSON-encodes the loader's result, stores it under the key with the
given ttl, leaves every other key untouched — and returns the loader's
result as produced, which need not equal the decoded form of what was
stored (Go decodes numbers as `float64`). -/
theorem C8_getSet_amended :
    (∀ (st : RedisStore) (k : String) (ttl : Int) (p : Unit → GoVal) (v : String) (t : Int)
        (d : GoVal), storeLookup st k = some (v, t) → jsonUnmarshalAny v = some d →
        RedisGetSet st k ttl p = ⟨st, .ok d, 0⟩)
    ∧ (∀ (st : RedisStore) (k : String) (ttl : Int) (p : Unit → GoVal),
        storeLookup st k = none →
        (RedisGetSet st k ttl p).loaderCalls = 1
        ∧ (RedisGetSet st k ttl p).result = .ok (p ())
        ∧ storeLookup (RedisGetSet st k ttl p).store k = some (jsonMarshal (p ()), ttl)
        ∧ ∀ k', k' ≠ k → storeLookup (RedisGetSet st k ttl p).store k' = storeLookup st k') := by
  constructor
  · intro st k ttl p v t d h1 h2
    simp [RedisGetSet, h1, h2]
  · intro st k ttl p h
    have hr : RedisGetSet st k ttl p
        = ⟨storeSet st k (jsonMarshal (p ())) ttl, .ok (p ()), 1⟩ := by
      unfold RedisGetSet
      rw [h]
    refine ⟨by rw [hr], by rw [hr], ?_, ?_⟩
    · rw [hr]
      have hf : List.find? (fun q => q.1 == k) ((k, jsonMarshal (p ()), ttl) :: st)
          = some (k, jsonMarshal (p ()), ttl) :=
        List.find?_cons_of_pos _ (by simp)
      simp [storeLookup, storeSet, hf]
    · intro k' hk
      rw [hr]
      have hb : (((k, jsonMarshal (p ()), ttl) : String × String × Int).1 == k') = false := by
        simpa using fun hcon => hk hcon.symm
      have hf : List.find? (fun q => q.1 == k') ((k, jsonMarshal (p ()), ttl) :: st)
          = List.find? (fun q => q.1 == k') st :=
        List.find?_cons_of_neg _ (by rw [hb]; exact Bool.false_ne_true)
      simp [storeLookup, storeSet, hf]

/-- C8 witness: apply the amended theorem at a concrete hit
(`"a" ↦ ("\"x\"", 5)`) and at a concrete miss. -/
theorem C8_getSet_amended_witness :
    RedisGetSet [("a", "\"x\"", 5)] "a" 7 (fun _ => .vint 9)
      = ⟨[("a", "\"x\"", 5)], .ok (.vstr "x"), 0⟩
    ∧ (RedisGetSet [] "b" 7 (fun _ => .vint 9)).loaderCalls = 1 := by
  constructor
  · exact C8_getSet_amended.1 [("a", "\"x\"", 5)] "a" 7 (fun _ => .vint 9) "\"x\"" 5
      (.vstr "x") (by decide) (by decide)
  · exact (C8_getSet_amended.2 [] "b" 7 (fun _ => .vint 9) rfl).1

/-! ## Relational client (`standardSQLClient`) and transactional cache gating

`standardSQLClient` holds a nullable transaction handle (`tx`); the
underlying `database/sql` outcomes are supplied by Boolean oracles.
`DB.Commit`/`DB.Rollback` (the `DB` wrapper around `standardSQLClient`)
additionally drive the engine's post-commit buffers
`afterCommitLocalCacheSets` / `afterCommitRedisCacheDeletes`. -/

/-- Errors surfaced by `standardSQLClient`. -/
inductive SQLErr where
  | alreadyStarted
  | notStarted
  | driver
deriving Repr, DecidableEq

/-- `standardSQLClient`: `tx = true` iff a transaction handle is held. -/
structure StandardSQLClient where
  tx : Bool
deriving Repr, DecidableEq

/-- `standardSQLClient.Begin`: error if a transaction is already started,
otherwise start one when the underlying `Begin` (oracle `ora`) succeeds. -/
def clientBegin (ora : Bool) (c : StandardSQLClient) : StandardSQLClient × Option SQLErr :=
  if c.tx then (c, some .alreadyStarted)
  else if ora then ({ tx := true }, none)
  else (c, some .driver)

/-- `standardSQLClient.Commit`: error if no transaction is open; on driver
failure the handle is kept, on success it is cleared. -/
def clientCommit (ora : Bool) (c : StandardSQLClient) : StandardSQLClient × Option SQLErr :=
  if !c.tx then (c, some .notStarted)
  else if ora then ({ tx := false }, none)
  else (c, some .driver)

/-- `standardSQLClient.Rollback`: returns `(hadTransaction, error)`; a no-op
without a transaction, and the handle is cleared only on success. -/
def clientRollback (ora : Bool) (c : StandardSQLClient) :
    StandardSQLClient × Bool × Option SQLErr :=
  if !c.tx then (c, false, none)
  else if ora then ({ tx := false }, true, none)
  else (c, true, some .driver)

/-- C6: on the relational client, `Begin` returns the
"transaction already started" error whenever a transaction is open on the
same handle (for every driver outcome, leaving the handle untouched), and a
successful `Commit` or `Rollback` clears the current-transaction handle so
that a subsequent `Begin` succeeds. -/
theorem C6_begin_commit_rollback (c : StandardSQLClient) (h : c.tx = true) :
    (∀ ora, clientBegin ora c = (c, some SQLErr.alreadyStarted))
    ∧ ((clientCommit true c).1.tx = false ∧ (clientCommit true c).2 = none
        ∧ clientBegin true (clientCommit true c).1 = ({ tx := true }, none))
    ∧ ((clientRollback true c).1.tx = false ∧ (clientRollback true c).2.2 = none
        ∧ clientBegin true (clientRollback true c).1 = ({ tx := true }, none)) := by
  refine ⟨?_, ?_, ?_⟩
  · intro ora
    simp [clientBegin, h]
  · refine ⟨by simp [clientCommit, h], by simp [clientCommit, h], ?_⟩
    simp [clientCommit, h, clientBegin]
  · refine ⟨by simp [clientRollback, h], by simp [clientRollback, h], ?_⟩
    simp [clientRollback, h, clientBegin]

/-- C6 witness: the theorem at the client holding a transaction. -/
theorem C6_begin_commit_rollback_witness :
    clientBegin true ⟨true⟩ = (⟨true⟩, some SQLErr.alreadyStarted)
    ∧ clientBegin true (clientCommit true ⟨true⟩).1 = (⟨true⟩, none) :=
  ⟨(C6_begin_commit_rollback ⟨true⟩ rfl).1 true,
   (C6_begin_commit_rollback ⟨true⟩ rfl).2.1.2.2⟩

/-! ### `DB.Commit` / `DB.Rollback` with post-commit cache buffers -/

/-- A key/value cache pool: key → packed value. -/
abbrev KVCache : Type := List (String × String)

/-- Registered cache pools: pool code → contents. -/
abbrev CachePools : Type := List (String × KVCache)

/-- Go panics reachable from `DB.Commit`/`DB.Rollback`. -/
inductive GoPanic where
  | commitErr
  | rollbackErr
  | unregisteredPool
deriving Repr, DecidableEq

/-- Set one key in a cache pool's contents. -/
def kvSet (kv : KVCache) (k v : String) : KVCache := (k, v) :: kv

/-- Remove keys from a cache pool's contents (`Del`). -/
def kvDel (kv : KVCache) (ks : List String) : KVCache :=
  kv.filter (fun p => !(ks.contains p.1))

/-- Apply `MSet pairs` to the pool named `code`; `none` when the pool is not
registered (Go `GetLocalCache` panics). -/
def poolsMSet (cs : CachePools) (code : String) (pairs : List (String × String)) :
    Option CachePools :=
  match cs with
  | [] => none
  | (c, kv) :: rest =>
    if c == code then some ((c, pairs.foldl (fun acc p => kvSet acc p.1 p.2) kv) :: rest)
    else (poolsMSet rest code pairs).map ((c, kv) :: ·)

/-- Apply `Del keys` to the pool named `code`; `none` when unregistered. -/
def poolsDel (cs : CachePools) (code : String) (ks : List String) : Option CachePools :=
  match cs with
  | [] => none
  | (c, kv) :: rest =>
    if c == code then some ((c, kvDel kv ks) :: rest)
    else (poolsDel rest code ks).map ((c, kv) :: ·)

/-- The engine state touched by `DB.Commit`/`DB.Rollback`: cache pools, the
post-commit buffers, and the SQL client. -/
structure EngineTxState where
  localCaches : CachePools
  redisCaches : CachePools
  afterCommitLocalCacheSets : Option (List (String × List (String × String)))
  afterCommitRedisCacheDeletes : Option (List (String × List String))
  client : StandardSQLClient
deriving Repr, DecidableEq

/-- Run the `for cacheCode, pairs := range afterCommitLocalCacheSets` loop;
stops (panics) at the first unregistered pool, keeping the partial result. -/
def applyLocalSets (buf : List (String × List (String × String))) (cs : CachePools) :
    CachePools × Option GoPanic :=
  match buf with
  | [] => (cs, none)
  | (code, pairs) :: rest =>
    match poolsMSet cs code pairs with
    | none => (cs, some .unregisteredPool)
    | some cs' => applyLocalSets rest cs'

/-- Run the `for cacheCode, keys := range afterCommitRedisCacheDeletes` loop. -/
def applyRedisDeletes (buf : List (String × List String)) (cs : CachePools) :
    CachePools × Option GoPanic :=
  match buf with
  | [] => (cs, none)
  | (code, ks) :: rest =>
    match poolsDel cs code ks with
    | none => (cs, some .unregisteredPool)
    | some cs' => applyRedisDeletes rest cs'

/-- `DB.Commit`: commit via the client and panic on error (touching nothing
else); on success apply every buffered local-cache `MSet`, clear that buffer,
apply every buffered shared-cache `Del`, and clear that buffer too. -/
def dbCommit (ora : Bool) (e : EngineTxState) : EngineTxState × Option GoPanic :=
  match clientCommit ora e.client with
  | (c', some _) => ({ e with client := c' }, some .commitErr)
  | (c', none) =>
    let e1 := { e with client := c' }
    let (lc, p1) := applyLocalSets (e1.afterCommitLocalCacheSets.getD []) e1.localCaches
    match p1 with
    | some p => ({ e1 with localCaches := lc }, some p)
    | none =>
      let e2 := { e1 with localCaches := lc, afterCommitLocalCacheSets := none }
      let (rc, p2) := applyRedisDeletes (e2.afterCommitRedisCacheDeletes.getD []) e2.redisCaches
      match p2 with
      | some p => ({ e2 with redisCaches := rc }, some p)
      | none => ({ e2 with redisCaches := rc, afterCommitRedisCacheDeletes := none }, none)

/-- `DB.Rollback`: roll back via the client and panic on error (before the
buffers are touched); otherwise discard both post-commit buffers without
applying anything. -/
def dbRollback (ora : Bool) (e : EngineTxState) : EngineTxState × Option GoPanic :=
  match clientRollback ora e.client with
  | (c', _, some _) => ({ e with client := c' }, some .rollbackErr)
  | (c', _, none) =>
    ({ e with client := c',
               afterCommitLocalCacheSets := none,
               afterCommitRedisCacheDeletes := none }, none)

/-- C2: in transaction mode no buffered local-cache set or shared-cache
delete is applied before the relational COMMIT returns success — when the
client commit fails, `DB.Commit` panics with both cache tiers and both
buffers exactly as they were — and a (successful) `Rollback` discards all
buffered cache mutations without applying any of them.  On a successful
commit both buffers are cleared (applied exactly then). -/
theorem C2_post_commit_gating (e : EngineTxState) (h : e.client.tx = true) :
    (dbCommit false e = (e, some GoPanic.commitErr))
    ∧ ((dbCommit true e).2 = none →
        (dbCommit true e).1.afterCommitLocalCacheSets = none
        ∧ (dbCommit true e).1.afterCommitRedisCacheDeletes = none)
    ∧ (dbRollback true e
        = ({ e with client := ⟨false⟩,
                     afterCommitLocalCacheSets := none,
                     afterCommitRedisCacheDeletes := none }, none))
    ∧ (dbRollback true e).1.localCaches = e.localCaches
    ∧ (dbRollback true e).1.redisCaches = e.redisCaches := by
  have hcfail : clientCommit false e.client = (e.client, some SQLErr.driver) := by
    simp [clientCommit, h]
  have hcok : clientCommit true e.client = (⟨false⟩, none) := by
    simp [clientCommit, h]
  have hrok : clientRollback true e.client = (⟨false⟩, true, none) := by
    simp [clientRollback, h]
  refine ⟨?_, ?_, ?_, ?_, ?_⟩
  · simp [dbCommit, hcfail]
  · intro hs
    unfold dbCommit at hs ⊢
    rw [hcok] at hs ⊢
    rcases h1 : applyLocalSets (e.afterCommitLocalCacheSets.getD []) e.localCaches
      with ⟨lc, p1⟩
    simp only [h1] at hs ⊢
    cases p1 with
    | some p => simp at hs
    | none =>
      rcases h2 : applyRedisDeletes (e.afterCommitRedisCacheDeletes.getD []) e.redisCaches
        with ⟨rc, p2⟩
      simp only [h2] at hs ⊢
      cases p2 with
      | some p => simp at hs
      | none => simp
  · simp [dbRollback, hrok]
  · simp [dbRollback, hrok]
  · simp [dbRollback, hrok]

/-- C2 witness: a transactional state with pending buffers; commit failure
leaves everything untouched, rollback discards the buffers. -/
theorem C2_post_commit_gating_witness :
    dbCommit false
        ⟨[("default", [])], [("default", [])],
         some [("default", [("User:1", "row")])], some [("default", ["User:1"])], ⟨true⟩⟩
      = (⟨[("default", [])], [("default", [])],
          some [("default", [("User:1", "row")])], some [("default", ["User:1"])], ⟨true⟩⟩,
         some GoPanic.commitErr)
    ∧ (dbRollback true
        ⟨[("default", [])], [("default", [])],
         some [("default", [("User:1", "row")])], some [("default", ["User:1"])], ⟨true⟩⟩).1.afterCommitLocalCacheSets = none :=
  ⟨(C2_post_commit_gating _ rfl).1, by rw [(C2_post_commit_gating _ rfl).2.2.1]⟩

/-! ## RabbitMQ batched consumer (`rabbitMQReceiver.Consume`)

The delivery channel and the `time.After` timer are modelled by a finite
script of events (each `select` iteration either receives a delivery or
times out).  A delivery is identified by its tag; `items` collects the
bodies (identified with the tags) and `last` is the tag of the last
delivery, exactly as in the Go loop.  The handler is a function from the
batch to `true` (no error) / `false` (error); `Ack` outcomes come from an
oracle.  Every handler invocation and every `Ack(multiple)` call is
recorded in a trace. -/

/-- One `select` outcome in the consumer loop. -/
inductive MQEvent where
  | deliver (tag : Nat)
  | timeout
deriving Repr, DecidableEq

/-- The loop variables of `Consume`: `counter`, `items`, `last`, `timeOut`. -/
structure ConsumeLoopState where
  counter : Nat
  items : List Nat
  last : Nat
  timeOut : Bool
deriving Repr, DecidableEq

/-- Observable actions of the consumer: a handler invocation on a batch
(with its success flag) and an `Ack(tag, multiple)` call. -/
inductive TraceEv where
  | handle (batch : List Nat) (ok : Bool)
  | ack (tag : Nat) (multiple : Bool)
deriving Repr, DecidableEq

/-- How a run of `Consume` ends. -/
inductive ConsumeRes where
  | handlerErr
  | ackErr
  | finished
  | starve
deriving Repr, DecidableEq

/-- The `for { … select { … } }` loop of `rabbitMQReceiver.Consume`,
indexed by a fuel argument strictly larger than the number of remaining loop
iterations (each iteration either flushes a pending batch or consumes one
scripted event, so `2 * |events| + 1` fuel always suffices).  At the loop
top, when `counter > 0` and the batch is full (`counter == max`) or the
timer fired, the handler runs on `items`; on success the last delivery tag
is acked with `multiple = true` and the batch state resets (returning when
`disableLoop` is set), on handler or ack error the loop returns.  Otherwise
`timeOut && disableLoop` returns, and else one scripted event is consumed
(`starve` marks the point where the Go loop would block forever on an
exhausted script). -/
def consumeGo (max : Nat) (dl : Bool) (handler : List Nat → Bool) (ackOra : Nat → Bool) :
    Nat → List MQEvent → ConsumeLoopState → List TraceEv → List TraceEv × ConsumeRes
  | 0, _, _, tr => (tr, .starve)
  | fuel + 1, evs, st, tr =>
    if 0 < st.counter ∧ (st.timeOut = true ∨ st.counter = max) then
      if handler st.items then
        let tr2 := tr ++ [.handle st.items true, .ack st.last true]
        if ackOra st.last then
          if dl then (tr2, .finished)
          else consumeGo max dl handler ackOra fuel evs ⟨0, [], st.last, false⟩ tr2
        else (tr2, .ackErr)
      else (tr ++ [.handle st.items false], .handlerErr)
    else if st.timeOut && dl then (tr, .finished)
    else
      match evs with
      | [] => (tr, .starve)
      | .deliver t :: rest =>
        consumeGo max dl handler ackOra fuel rest
          ⟨st.counter + 1, st.items ++ [t], t, st.timeOut⟩ tr
      | .timeout :: rest =>
        consumeGo max dl handler ackOra fuel rest
          ⟨st.counter, st.items, st.last, true⟩ tr

/-- `max := config.PrefetchCount; if max <= 0 { max = 1 }`. -/
def effectiveMax (prefetchCount : Int) : Nat :=
  if prefetchCount ≤ 0 then 1 else prefetchCount.toNat

/-- `rabbitMQReceiver.Consume` on a scripted run: start with an empty batch
and no timeout, with enough fuel for the whole script. -/
def rabbitConsume (prefetchCount : Int) (dl : Bool) (handler : List Nat → Bool)
    (ackOra : Nat → Bool) (evs : List MQEvent) : List TraceEv × ConsumeRes :=
  consumeGo (effectiveMax prefetchCount) dl handler ackOra
    (2 * evs.length + 1) evs ⟨0, [], 0, false⟩ []

/-- The trace produced by a sequence of *successfully handled* batches: each
batch is handled once and immediately acked once, on the batch's last
delivery tag, with `multiple = true`. -/
def pairedTrace (bs : List (List Nat)) : List TraceEv :=
  (bs.map (fun b => [TraceEv.handle b true, TraceEv.ack (b.getLastD 0) true])).flatten

theorem getLastD_append_single (l : List Nat) (a d : Nat) :
    (l ++ [a]).getLastD d = a := by
  induction l with
  | nil => rfl
  | cons x t ih =>
    cases t with
    | nil => rfl
    | cons y u => simpa [List.getLastD] using ih

theorem pairedTrace_cons (b : List Nat) (bs : List (List Nat)) :
    pairedTrace (b :: bs)
      = TraceEv.handle b true :: TraceEv.ack (b.getLastD 0) true :: pairedTrace bs := by
  simp [pairedTrace]

theorem effectiveMax_pos (pc : Int) : 0 < effectiveMax pc := by
  unfold effectiveMax
  split
  · omega
  · rename_i h
    omega

theorem consumeGo_succ (max : Nat) (dl : Bool) (handler : List Nat → Bool)
    (ackOra : Nat → Bool) (fuel : Nat) (evs : List MQEvent) (st : ConsumeLoopState)
    (tr : List TraceEv) :
    consumeGo max dl handler ackOra (fuel + 1) evs st tr
      = if 0 < st.counter ∧ (st.timeOut = true ∨ st.counter = max) then
          if handler st.items then
            if ackOra st.last then
              if dl then (tr ++ [.handle st.items true, .ack st.last true], .finished)
              else consumeGo max dl handler ackOra fuel evs ⟨0, [], st.last, false⟩
                (tr ++ [.handle st.items true, .ack st.last true])
            else (tr ++ [.handle st.items true, .ack st.last true], .ackErr)
          else (tr ++ [.handle st.items false], .handlerErr)
        else if st.timeOut && dl then (tr, .finished)
        else
          match evs with
          | [] => (tr, .starve)
          | .deliver t :: rest =>
            consumeGo max dl handler ackOra fuel rest
              ⟨st.counter + 1, st.items ++ [t], t, st.timeOut⟩ tr
          | .timeout :: rest =>
            consumeGo max dl handler ackOra fuel rest
              ⟨st.counter, st.items, st.last, true⟩ tr := rfl

theorem consumeGo_spec (max : Nat) (dl : Bool) (handler : List Nat → Bool)
    (ackOra : Nat → Bool) (hmax : 0 < max) :
    ∀ (fuel : Nat) (evs : List MQEvent) (st : ConsumeLoopState) (tr : List TraceEv),
      2 * evs.length + min st.counter 1 < fuel →
      st.items.length = st.counter →
      st.counter ≤ max →
      (0 < st.counter → st.last = st.items.getLastD 0) →
      ∃ bs : List (List Nat),
        (∀ b ∈ bs, handler b = true ∧ 0 < b.length ∧ b.length ≤ max) ∧
        (((consumeGo max dl handler ackOra fuel evs st tr).2 = .handlerErr
            ∧ ∃ bf, handler bf = false ∧ 0 < bf.length ∧ bf.length ≤ max
              ∧ (consumeGo max dl handler ackOra fuel evs st tr).1
                  = tr ++ pairedTrace bs ++ [.handle bf false])
          ∨ ((consumeGo max dl handler ackOra fuel evs st tr).2 ≠ .handlerErr
            ∧ (consumeGo max dl handler ackOra fuel evs st tr).1
                = tr ++ pairedTrace bs)) := by
  intro fuel
  induction fuel with
  | zero =>
    intro evs st tr hm _ _ _
    exact absurd hm (by omega)
  | succ fuel ih =>
    intro evs st tr hm hlen hle hlast
    rw [consumeGo_succ]
    by_cases hc : 0 < st.counter ∧ (st.timeOut = true ∨ st.counter = max)
    · rw [if_pos hc]
      have hlast2 : st.last = st.items.getLastD 0 := hlast hc.1
      by_cases hh : handler st.items = true
      · rw [if_pos hh]
        have hbatch : handler st.items = true ∧ 0 < st.items.length
            ∧ st.items.length ≤ max := ⟨hh, by omega, by omega⟩
        by_cases ha : ackOra st.last = true
        · rw [if_pos ha]
          by_cases hdl : dl = true
          · rw [if_pos hdl]
            refine ⟨[st.items], ?_, Or.inr ⟨fun h => ConsumeRes.noConfusion h, ?_⟩⟩
            · intro b hb
              rw [List.mem_singleton] at hb
              subst hb
              exact hbatch
            · simp [pairedTrace, hlast2]
          · rw [if_neg hdl]
            have hm2 : 2 * evs.length + min (0 : Nat) 1 < fuel := by
              have h1 := hc.1
              omega
            obtain ⟨bs, hbs, hres⟩ := ih evs ⟨0, [], st.last, false⟩
              (tr ++ [.handle st.items true, .ack st.last true])
              hm2 rfl (Nat.zero_le max) (fun h => absurd h (Nat.lt_irrefl 0))
            refine ⟨st.items :: bs, ?_, ?_⟩
            · intro b hb
              rcases List.mem_cons.mp hb with hb | hb
              · subst hb; exact hbatch
              · exact hbs b hb
            · rcases hres with ⟨he, bf, hbf1, hbf2, hbf3, hbf4⟩ | ⟨he, heq⟩
              · refine Or.inl ⟨he, bf, hbf1, hbf2, hbf3, ?_⟩
                rw [hbf4, pairedTrace_cons, hlast2]
                simp
              · refine Or.inr ⟨he, ?_⟩
                rw [heq, pairedTrace_cons, hlast2]
                simp
        · rw [if_neg ha]
          refine ⟨[st.items], ?_, Or.inr ⟨fun h => ConsumeRes.noConfusion h, ?_⟩⟩
          · intro b hb
            rw [List.mem_singleton] at hb
            subst hb
            exact hbatch
          · simp [pairedTrace, hlast2]
      · rw [if_neg hh]
        refine ⟨[], by simp, Or.inl ⟨rfl, st.items, ?_, by omega, by omega, ?_⟩⟩
        · simpa using hh
        · simp [pairedTrace]
    · rw [if_neg hc]
      by_cases hdl : (st.timeOut && dl) = true
      · rw [if_pos hdl]
        exact ⟨[], by simp, Or.inr ⟨fun h => ConsumeRes.noConfusion h, by simp [pairedTrace]⟩⟩
      · rw [if_neg hdl]
        cases evs with
        | nil =>
          exact ⟨[], by simp, Or.inr ⟨fun h => ConsumeRes.noConfusion h, by simp [pairedTrace]⟩⟩
        | cons e rest =>
          cases e with
          | deliver t =>
            have hle2 : st.counter + 1 ≤ max := by
              rcases Nat.eq_zero_or_pos st.counter with h0 | h0
              · omega
              · have hnor : ¬(st.timeOut = true ∨ st.counter = max) :=
                  fun hor => hc ⟨h0, hor⟩
                have hne : st.counter ≠ max := fun he => hnor (Or.inr he)
                omega
            have hm2 : 2 * rest.length + min (st.counter + 1) 1 < fuel := by
              simp only [List.length_cons] at hm
              omega
            obtain ⟨bs, hbs, hres⟩ := ih rest
              ⟨st.counter + 1, st.items ++ [t], t, st.timeOut⟩ tr
              hm2 (by simp [hlen]) hle2
              (fun _ => (getLastD_append_single st.items t 0).symm)
            exact ⟨bs, hbs, hres⟩
          | timeout =>
            have hm2 : 2 * rest.length + min st.counter 1 < fuel := by
              simp only [List.length_cons] at hm
              omega
            obtain ⟨bs, hbs, hres⟩ := ih rest
              ⟨st.counter, st.items, st.last, true⟩ tr hm2 hlen hle hlast
            exact ⟨bs, hbs, hres⟩

/-- C5: for every run of the batched consumer, the trace of observable
actions is a sequence of blocks `handler(batch); Ack(lastTag, multiple=true)`
— exactly one single ack per successful handler invocation, on the last
delivery tag of that batch — optionally terminated by one failing handler
invocation after which no ack is emitted and `Consume` returns the handler's
error (result `handlerErr`). -/
theorem C5_batched_consumer_ack (pc : Int) (dl : Bool) (handler : List Nat → Bool)
    (ackOra : Nat → Bool) (evs : List MQEvent) :
    ∃ bs : List (List Nat),
      (∀ b ∈ bs, handler b = true ∧ 0 < b.length) ∧
      (((rabbitConsume pc dl handler ackOra evs).2 = .handlerErr
          ∧ ∃ bf, handler bf = false
            ∧ (rabbitConsume pc dl handler ackOra evs).1
                = pairedTrace bs ++ [.handle bf false])
        ∨ ((rabbitConsume pc dl handler ackOra evs).2 ≠ .handlerErr
          ∧ (rabbitConsume pc dl handler ackOra evs).1 = pairedTrace bs)) := by
  obtain ⟨bs, hbs, hres⟩ := consumeGo_spec (effectiveMax pc) dl handler ackOra
    (effectiveMax_pos pc) (2 * evs.length + 1) evs ⟨0, [], 0, false⟩ []
    (by show 2 * evs.length + min 0 1 < 2 * evs.length + 1; omega) rfl
    (Nat.zero_le _) (fun h => absurd h (by decide))
  refine ⟨bs, fun b hb => ⟨(hbs b hb).1, (hbs b hb).2.1⟩, ?_⟩
  rcases hres with ⟨he, bf, hbf1, _, _, hbf4⟩ | ⟨he, heq⟩
  · exact Or.inl ⟨he, bf, hbf1, by simpa using hbf4⟩
  · exact Or.inr ⟨he, by simpa using heq⟩

theorem mem_pairedTrace (ev : TraceEv) (bs : List (List Nat)) :
    ev ∈ pairedTrace bs →
      ∃ b ∈ bs, ev = .handle b true ∨ ev = .ack (b.getLastD 0) true := by
  induction bs with
  | nil => intro h; simp [pairedTrace] at h
  | cons b t ih =>
    intro h
    rw [pairedTrace_cons, List.mem_cons] at h
    rcases h with h | h
    · exact ⟨b, by simp, Or.inl h⟩
    · rw [List.mem_cons] at h
      rcases h with h | h
      · exact ⟨b, by simp, Or.inr h⟩
      · obtain ⟨b2, hb2, hor⟩ := ih h
        exact ⟨b2, by simp [hb2], hor⟩

/-- C10: when the queue configuration's `PrefetchCount` is at most zero the
consumer clamps the batch limit to 1, so the handler is never invoked with
more than `max(PrefetchCount, 1) = 1` messages: every handler invocation in
the trace carries a batch of length at most 1. -/
theorem C10_prefetch_clamp (pc : Int) (dl : Bool) (handler : List Nat → Bool)
    (ackOra : Nat → Bool) (evs : List MQEvent) (hpc : pc ≤ 0) :
    ∀ ev ∈ (rabbitConsume pc dl handler ackOra evs).1,
      ∀ (b : List Nat) (ok : Bool), ev = .handle b ok → b.length ≤ 1 := by
  have hmax : effectiveMax pc = 1 := by simp [effectiveMax, hpc]
  obtain ⟨bs, hbs, hres⟩ := consumeGo_spec (effectiveMax pc) dl handler ackOra
    (effectiveMax_pos pc) (2 * evs.length + 1) evs ⟨0, [], 0, false⟩ []
    (by show 2 * evs.length + min 0 1 < 2 * evs.length + 1; omega) rfl
    (Nat.zero_le _) (fun h => absurd h (by decide))
  intro ev hev b ok hb
  subst hb
  rcases hres with ⟨_, bf, _, _, hbf3, hbf4⟩ | ⟨_, heq⟩
  · rw [show (rabbitConsume pc dl handler ackOra evs).1
        = (consumeGo (effectiveMax pc) dl handler ackOra
            (2 * evs.length + 1) evs ⟨0, [], 0, false⟩ []).1 from rfl,
      hbf4] at hev
    simp only [List.nil_append, List.mem_append] at hev
    rcases hev with hev | hev
    · obtain ⟨b2, hb2, hor⟩ := mem_pairedTrace _ bs hev
      rcases hor with h | h
      · rw [TraceEv.handle.injEq] at h
        rw [h.1]
        have := (hbs b2 hb2).2.2
        omega
      · exact absurd h (by simp)
    · rw [List.mem_singleton, TraceEv.handle.injEq] at hev
      rw [hev.1]
      omega
  · rw [show (rabbitConsume pc dl handler ackOra evs).1
        = (consumeGo (effectiveMax pc) dl handler ackOra
            (2 * evs.length + 1) evs ⟨0, [], 0, false⟩ []).1 from rfl,
      heq] at hev
    simp only [List.nil_append] at hev
    obtain ⟨b2, hb2, hor⟩ := mem_pairedTrace _ bs hev
    rcases hor with h | h
    · rw [TraceEv.handle.injEq] at h
      rw [h.1]
      have := (hbs b2 hb2).2.2
      omega
    · exact absurd h (by simp)

/-- C10 witness: a run with `PrefetchCount = 0` and one delivery handles the
batch `[1]`, whose length is at most 1 by the theorem. -/
theorem C10_prefetch_clamp_witness : ([1] : List Nat).length ≤ 1 :=
  C10_prefetch_clamp 0 true (fun _ => true) (fun _ => true) [.deliver 1]
    (by decide) (.handle [1] true) (by decide) [1] true rfl

/-! ## Engine tracking (`Engine.Track`)

`Track` appends each entity to `trackedEntities`, increments
`trackedEntitiesCounter`, and panics with "track limit 10000 exceeded" the
moment the counter reaches 10000.  Entities are identified by opaque
strings. -/

/-- The `for _, entity := range entity` loop of `Engine.Track`:
`(counter, trackedList)` threaded through, panic message on overflow. -/
def track : Nat → List String → List String → (Nat × List String) × Option String
  | n, tr, [] => ((n, tr), none)
  | n, tr, x :: rest =>
    if n + 1 = 10000 then ((n + 1, tr ++ [x]), some "track limit 10000 exceeded")
    else track (n + 1) (tr ++ [x]) rest

/-- C9: starting below the limit, `Track` returns normally iff the counter
stays strictly below 10000 (so every engine operation observes at most 9999
tracked entities after a normal return, with all entities appended in
order); as soon as the counter reaches 10000 it panics with
"track limit 10000 exceeded", with the counter stopped at exactly 10000. -/
theorem C9_track_limit (n : Nat) (tr ents : List String) (h : n < 10000) :
    ((track n tr ents).2 = none ↔ n + ents.length < 10000)
    ∧ ((track n tr ents).2 = none →
        (track n tr ents).1.1 = n + ents.length ∧ (track n tr ents).1.1 ≤ 9999
        ∧ (track n tr ents).1.2 = tr ++ ents)
    ∧ ((track n tr ents).2 ≠ none →
        (track n tr ents).2 = some "track limit 10000 exceeded"
        ∧ (track n tr ents).1.1 = 10000) := by
  induction ents generalizing n tr with
  | nil =>
    refine ⟨?_, ?_, ?_⟩
    · simp [track]; omega
    · intro _
      simp [track]
      omega
    · intro hco
      simp [track] at hco
  | cons x rest ih =>
    by_cases hl : n + 1 = 10000
    · have he : track n tr (x :: rest)
          = ((n + 1, tr ++ [x]), some "track limit 10000 exceeded") := by
        simp [track, hl]
      refine ⟨?_, ?_, ?_⟩
      · rw [he]
        simp
        omega
      · intro hco
        rw [he] at hco
        simp at hco
      · intro _
        rw [he]
        simp
        omega
    · have he : track n tr (x :: rest) = track (n + 1) (tr ++ [x]) rest := by
        simp [track, hl]
      have hlt : n + 1 < 10000 := by omega
      obtain ⟨ih1, ih2, ih3⟩ := ih (n + 1) (tr ++ [x]) hlt
      refine ⟨?_, ?_, ?_⟩
      · rw [he, ih1]
        simp
        omega
      · intro hco
        rw [he] at hco ⊢
        obtain ⟨h1, h2, h3⟩ := ih2 hco
        refine ⟨by rw [h1]; simp; omega, h2, by rw [h3]; simp⟩
      · intro hco
        rw [he] at hco ⊢
        exact ih3 hco

/-- C9 witness: a single `Track` from an empty engine returns normally. -/
theorem C9_track_limit_witness :
    (track 0 [] ["e"]).2 = none ∧ (0 : Nat) + 1 < 10000 :=
  ⟨(C9_track_limit 0 [] ["e"] (by decide)).1.mpr (by decide), by decide⟩

/-! ## Flush pipeline (`Engine.flushTrackedEntities`)

Entities are represented by the code of the MySQL pool their schema binds
to; the engine state is the tracked list, the counter, and the per-pool
current-transaction flag.  `Begin`/`Commit` outcomes on each pool come from
oracles; the body of `flush` itself is abstracted by its result (`flushRes`),
since only the control flow around it decides the claim.  The `defer`
registering the rollback loop over the opened pools comes *after* the Begin
loop in the source, so it covers the flush-error, commit-error and success
paths, but a Begin failure in the middle of the pool loop returns before
the rollback is registered, leaving the already-begun pools open. -/

/-- Pointwise update of the per-pool transaction flag. -/
def setTx (f : String → Bool) (c : String) (v : Bool) : String → Bool :=
  fun x => if x = c then v else f x

/-- First-occurrence deduplication: one admissible iteration order of the
Go `dbPools` map keyed by pool code. -/
def dedupFirst (l : List String) : List String :=
  l.foldl (fun acc x => if acc.contains x then acc else acc ++ [x]) []

inductive FlushErr where
  | beginFailed
  | flushFailed
  | commitFailed
deriving Repr, DecidableEq

/-- The `for _, db := range dbPools { db.Begin() }` loop: fails on an
already-open transaction (as `standardSQLClient.Begin` does) or when the
driver oracle refuses; stops at the first failure. -/
def beginSeq (bOra : String → Bool) : List String → (String → Bool) →
    ((String → Bool) × Option FlushErr)
  | [], ps => (ps, none)
  | c :: rest, ps =>
    if ps c then (ps, some .beginFailed)
    else if bOra c then beginSeq bOra rest (setTx ps c true)
    else (ps, some .beginFailed)

/-- The `for _, db := range dbPools { db.Commit() }` loop. -/
def commitSeq (cOra : String → Bool) : List String → (String → Bool) →
    ((String → Bool) × Option FlushErr)
  | [], ps => (ps, none)
  | c :: rest, ps =>
    if !ps c then (ps, some .commitFailed)
    else if cOra c then commitSeq cOra rest (setTx ps c false)
    else (ps, some .commitFailed)

/-- The deferred `for _, db := range dbPools { db.Rollback() }` loop:
`DB.Rollback` clears an open transaction and is a no-op otherwise. -/
def rollbackAll (codes : List String) (ps : String → Bool) : String → Bool :=
  codes.foldl (fun f c => setTx f c false) ps

/-- Engine state for the flush pipeline. -/
structure FlushEngine where
  tracked : List String
  counter : Nat
  pools : String → Bool

/-- `Engine.flushTrackedEntities(lazy, transaction)`: return immediately when
nothing is tracked; in transaction mode `Begin` on every distinct pool of
the tracked entities; run `flush`; `Commit` each pool; clear the tracked
list only after full success.  A Begin failure returns *before* the `defer`
registering the rollback loop, so the pools its loop already begun stay
open; once the Begin loop has completed, the deferred rollback runs on
every remaining exit path. -/
def flushGo (transaction : Bool) (cOra : String → Bool) (flushRes : Option FlushErr)
    (e : FlushEngine) (codes : List String)
    (afterBegin : (String → Bool) × Option FlushErr) : FlushEngine × Option FlushErr :=
  match afterBegin with
  | (ps, some err) => ({ e with pools := ps }, some err)
  | (ps, none) =>
    match flushRes with
    | some err => ({ e with pools := rollbackAll codes ps }, some err)
    | none =>
      if transaction then
        match commitSeq cOra codes ps with
        | (ps2, some err) => ({ e with pools := rollbackAll codes ps2 }, some err)
        | (ps2, none) => (⟨[], 0, rollbackAll codes ps2⟩, none)
      else (⟨[], 0, rollbackAll codes ps⟩, none)

def flushTrackedEntities (transaction : Bool) (bOra cOra : String → Bool)
    (flushRes : Option FlushErr) (e : FlushEngine) : FlushEngine × Option FlushErr :=
  if e.counter = 0 then (e, none)
  else
    flushGo transaction cOra flushRes e (if transaction then dedupFirst e.tracked else [])
      (beginSeq bOra (if transaction then dedupFirst e.tracked else []) e.pools)

theorem rollbackAll_not_mem (codes : List String) :
    ∀ (f : String → Bool) (c' : String), c' ∉ codes → rollbackAll codes f c' = f c' := by
  induction codes with
  | nil => intro f c' _; rfl
  | cons c rest ih =>
    intro f c' h
    have h1 : c' ≠ c := fun he => h (by simp [he])
    have h2 : c' ∉ rest := fun hm => h (by simp [hm])
    show rollbackAll rest (setTx f c false) c' = f c'
    rw [ih _ _ h2]
    simp [setTx, h1]

theorem rollbackAll_mem (codes : List String) :
    ∀ (f : String → Bool) (c' : String), c' ∈ codes → rollbackAll codes f c' = false := by
  induction codes with
  | nil => intro f c' h; simp at h
  | cons c rest ih =>
    intro f c' h
    by_cases hm : c' ∈ rest
    · exact ih _ _ hm
    · have hc' : c' = c := by
        rcases List.mem_cons.mp h with h1 | h1
        · exact h1
        · exact absurd h1 hm
      show rollbackAll rest (setTx f c false) c' = false
      rw [rollbackAll_not_mem rest _ _ hm]
      simp [setTx, hc']

theorem beginSeq_outside (bOra : String → Bool) (codes : List String) :
    ∀ (ps : String → Bool) (c' : String), c' ∉ codes →
      (beginSeq bOra codes ps).1 c' = ps c' := by
  induction codes with
  | nil => intro ps c' _; rfl
  | cons c rest ih =>
    intro ps c' h
    have h1 : c' ≠ c := fun he => h (by simp [he])
    have h2 : c' ∉ rest := fun hm => h (by simp [hm])
    show (if ps c then (ps, some FlushErr.beginFailed)
          else if bOra c then beginSeq bOra rest (setTx ps c true)
          else (ps, some FlushErr.beginFailed)).1 c' = ps c'
    by_cases hp : ps c = true
    · simp [hp]
    · rw [if_neg hp]
      by_cases hb : bOra c = true
      · rw [if_pos hb, ih _ _ h2]
        simp [setTx, h1]
      · rw [if_neg hb]

theorem commitSeq_outside (cOra : String → Bool) (codes : List String) :
    ∀ (ps : String → Bool) (c' : String), c' ∉ codes →
      (commitSeq cOra codes ps).1 c' = ps c' := by
  induction codes with
  | nil => intro ps c' _; rfl
  | cons c rest ih =>
    intro ps c' h
    have h1 : c' ≠ c := fun he => h (by simp [he])
    have h2 : c' ∉ rest := fun hm => h (by simp [hm])
    show (if !ps c then (ps, some FlushErr.commitFailed)
          else if cOra c then commitSeq cOra rest (setTx ps c false)
          else (ps, some FlushErr.commitFailed)).1 c' = ps c'
    by_cases hp : ps c = true
    · rw [if_neg (by simp [hp])]
      by_cases hb : cOra c = true
      · rw [if_pos hb, ih _ _ h2]
        simp [setTx, h1]
      · rw [if_neg hb]
    · rw [if_pos (by simp [hp])]

theorem pools_false_after_rollback (codes : List String) (base ps : String → Bool)
    (hbase : ∀ c, base c = false)
    (houtside : ∀ c, c ∉ codes → ps c = base c) :
    ∀ c, rollbackAll codes ps c = false := by
  intro c
  by_cases hm : c ∈ codes
  · exact rollbackAll_mem codes ps c hm
  · rw [rollbackAll_not_mem codes ps c hm, houtside c hm, hbase c]

/-- C7 counterexample: the claim says that whenever the flush pipeline
returns an error, every transaction opened for the flush has been rolled
back.  But the `defer` registering the rollback loop is placed *after* the
Begin loop in the source: with two pools, when `Begin` succeeds on the
first and fails on the second, the pipeline returns the error while the
first pool's transaction is still open (and the tracked list is preserved).
-/
theorem C7_counterexample :
    (flushTrackedEntities true (fun c => c == "p1") (fun _ => true) none
        ⟨["p1", "p2"], 2, fun _ => false⟩).2 = some FlushErr.beginFailed
    ∧ (flushTrackedEntities true (fun c => c == "p1") (fun _ => true) none
        ⟨["p1", "p2"], 2, fun _ => false⟩).1.pools "p1" = true
    ∧ (flushTrackedEntities true (fun c => c == "p1") (fun _ => true) none
        ⟨["p1", "p2"], 2, fun _ => false⟩).1.tracked = ["p1", "p2"] :=
  ⟨rfl, rfl, rfl⟩

/-- C7 (amended): if the flush pipeline returns an error, the engine's
tracked-entity list and counter are unchanged (preserved for the caller);
once the Begin loop over the pools has completed, the deferred rollback
guarantees that no pool is left with an open transaction on any exit path
(flush error, commit error, or success); but when `Begin` itself fails in
the middle of the pool loop, the deferred rollback is not yet registered
and the pipeline returns that error with the pool states exactly as the
Begin loop left them — transactions already opened on earlier pools remain
open.  The tracked list is cleared exactly when the flush completes
successfully. -/
theorem C7_flush_preserves_tracked_amended (transaction : Bool)
    (bOra cOra : String → Bool) (flushRes : Option FlushErr) (e : FlushEngine)
    (hpools : ∀ c, e.pools c = false)
    (hinv : e.counter = 0 → e.tracked = []) :
    ((flushTrackedEntities transaction bOra cOra flushRes e).2.isSome →
        (flushTrackedEntities transaction bOra cOra flushRes e).1.tracked = e.tracked
        ∧ (flushTrackedEntities transaction bOra cOra flushRes e).1.counter = e.counter)
    ∧ ((beginSeq bOra (if transaction then dedupFirst e.tracked else []) e.pools).2 = none →
        ∀ c, (flushTrackedEntities transaction bOra cOra flushRes e).1.pools c = false)
    ∧ ((flushTrackedEntities transaction bOra cOra flushRes e).2 = none →
        (flushTrackedEntities transaction bOra cOra flushRes e).1.tracked = []
        ∧ (flushTrackedEntities transaction bOra cOra flushRes e).1.counter = 0)
    ∧ (∀ err,
        (beginSeq bOra (if transaction then dedupFirst e.tracked else []) e.pools).2
          = some err →
        (flushTrackedEntities transaction bOra cOra flushRes e).1.pools
            = (beginSeq bOra (if transaction then dedupFirst e.tracked else []) e.pools).1
        ∧ (flushTrackedEntities transaction bOra cOra flushRes e).2 = some err) := by
  unfold flushTrackedEntities
  by_cases h0 : e.counter = 0
  · rw [if_pos h0]
    have htr := hinv h0
    refine ⟨fun h => by simp at h, fun _ => hpools, fun _ => ⟨htr, h0⟩, fun err herr => ?_⟩
    rw [htr] at herr
    have hnil : (if transaction then dedupFirst [] else []) = ([] : List String) := by
      cases transaction <;> rfl
    rw [hnil] at herr
    simp [beginSeq] at herr
  · rw [if_neg h0]
    set codes := if transaction then dedupFirst e.tracked else [] with hcodes
    rcases hbeg : beginSeq bOra codes e.pools with ⟨ps, berr⟩
    unfold flushGo
    have hout : ∀ c, c ∉ codes → ps c = e.pools c := by
      intro c hc
      have := beginSeq_outside bOra codes e.pools c hc
      rw [hbeg] at this
      exact this
    cases berr with
    | some err =>
      refine ⟨fun _ => ⟨rfl, rfl⟩, fun hnone => by simp at hnone,
        fun h => by simp at h, fun err0 herr0 => ?_⟩
      have h5 : err = err0 := by simpa using herr0
      exact ⟨rfl, congrArg some h5⟩
    | none =>
      cases flushRes with
      | some err =>
        exact ⟨fun _ => ⟨rfl, rfl⟩,
          fun _ => pools_false_after_rollback codes e.pools ps hpools hout,
          fun h => by first | exact h.elim | simp at h,
          fun err0 herr0 => by first | exact herr0.elim | simp at herr0⟩
      | none =>
        by_cases ht : transaction
        · simp only [if_pos ht]
          rcases hcom : commitSeq cOra codes ps with ⟨ps2, cerr⟩
          have hout2 : ∀ c, c ∉ codes → ps2 c = e.pools c := by
            intro c hc
            have h3 := commitSeq_outside cOra codes ps c hc
            rw [hcom] at h3
            exact h3.trans (hout c hc)
          cases cerr with
          | some err =>
            exact ⟨fun _ => ⟨by trivial, by trivial⟩,
              fun _ => pools_false_after_rollback codes e.pools ps2 hpools hout2,
              fun h => by first | exact h.elim | simp at h,
              fun err0 herr0 => by first | exact herr0.elim | simp at herr0⟩
          | none =>
            exact ⟨fun h => by first | exact h.elim | simp at h,
              fun _ => pools_false_after_rollback codes e.pools ps2 hpools hout2,
              fun _ => ⟨by trivial, by trivial⟩,
              fun err0 herr0 => by first | exact herr0.elim | simp at herr0⟩
        · simp only [if_neg ht]
          exact ⟨fun h => by first | exact h.elim | simp at h,
            fun _ => pools_false_after_rollback codes e.pools ps hpools hout,
            fun _ => ⟨by trivial, by trivial⟩,
            fun err0 herr0 => by first | exact herr0.elim | simp at herr0⟩

/-- C7 witness: a failing flush over one tracked entity in transaction mode,
with `Begin` having succeeded, preserves the tracked list and leaves no
transaction open. -/
theorem C7_flush_preserves_tracked_amended_witness :
    (flushTrackedEntities true (fun _ => true) (fun _ => true)
        (some FlushErr.flushFailed) ⟨["default"], 1, fun _ => false⟩).1.tracked
      = ["default"]
    ∧ (flushTrackedEntities true (fun _ => true) (fun _ => true)
        (some FlushErr.flushFailed) ⟨["default"], 1, fun _ => false⟩).1.pools "default"
      = false := by
  have h := C7_flush_preserves_tracked_amended true (fun _ => true) (fun _ => true)
    (some FlushErr.flushFailed) ⟨["default"], 1, fun _ => false⟩
    (fun _ => rfl) (fun hc => absurd hc (by decide))
  refine ⟨?_, h.2.1 rfl "default"⟩
  have hs : (flushTrackedEntities true (fun _ => true) (fun _ => true)
      (some FlushErr.flushFailed) ⟨["default"], 1, fun _ => false⟩).2.isSome = true := rfl
  exact (h.1 hs).1

/-! ## Migration planner ordering (`getAlters`)

The final stage of `getAlters` classifies the collected alters by substring
tests (`strings.Index(sql, "DROP FOREIGN KEY") > 0`, strictly positive, and
likewise for `"ADD CONSTRAINT"`), sorts *only* the remaining statements by
SQL length (`sort.Slice` with `len <`; insertion sort by `≤` realizes one
admissible outcome), and emits drop-foreign-keys first, sorted normals next,
add-constraints last.  The collection stage for tables present in the
database but absent from the registry (`getDropForeignKeysAlter` plus the
`DROP TABLE IF EXISTS` statement) is embedded as well, in an
iteration order given as input, since Go map iteration order is
unspecified. -/

/-- One `Alter{SQL, Safe, Pool}` of the migration planner. -/
structure Alter where
  SQL : List Char
  Safe : Bool
  Pool : String
deriving Repr, DecidableEq

/-- `strings.Index(sql, "DROP FOREIGN KEY") > 0` (note: strictly positive). -/
def hasDropForeignKey (a : Alter) : Bool :=
  match strIndexChars "DROP FOREIGN KEY".data a.SQL with
  | some i => decide (0 < i)
  | none => false

/-- `strings.Index(sql, "ADD CONSTRAINT") > 0`. -/
def hasAddConstraint (a : Alter) : Bool :=
  match strIndexChars "ADD CONSTRAINT".data a.SQL with
  | some i => decide (0 < i)
  | none => false

/-- Length comparison used by `sort.Slice`'s `less` function. -/
def lenLE (a b : Alter) : Prop := a.SQL.length ≤ b.SQL.length

instance : DecidableRel lenLE := fun a b => Nat.decLe _ _

instance : IsTotal Alter lenLE := ⟨fun a b => Nat.le_total _ _⟩

instance : IsTrans Alter lenLE := ⟨fun _ _ _ => Nat.le_trans⟩

/-- `sort.Slice(sortedNormal, len <)`: a sort of the list by SQL length. -/
def sortByLen (l : List Alter) : List Alter := l.insertionSort lenLE

/-- The ordering stage of `getAlters`: three classification passes over the
collected list, then `DROP FOREIGN KEY` first (emission order), length-sorted
normals, `ADD CONSTRAINT` last (emission order). -/
def sortAlters (alters : List Alter) : List Alter :=
  alters.filter (fun a => hasDropForeignKey a)
    ++ sortByLen (alters.filter (fun a => !hasDropForeignKey a && !hasAddConstraint a))
    ++ alters.filter (fun a => hasAddConstraint a)

/-- Go `strings.Join`. -/
def joinChars (sep : List Char) : List (List Char) → List Char
  | [] => []
  | [x] => x
  | x :: y :: t => x ++ sep ++ joinChars sep (y :: t)

/-- `getDropForeignKeysAlter`: `ALTER TABLE \`db\`.\`t\`` on its own line,
then the `DROP FOREIGN KEY` clauses joined by `",\t\n"`, trailing commas
trimmed, terminated by `;` (only called with at least one key). -/
def dropForeignKeysAlterSQL (dbName tableName : String) (keys : List String) : List Char :=
  trimRightCutset [','] (
    ("ALTER TABLE `".data ++ dbName.data ++ "`.`".data ++ tableName.data ++ "`\n".data)
    ++ joinChars ",\t\n".data
        (keys.map (fun k => "DROP FOREIGN KEY `".data ++ k.data ++ "`".data)))
  ++ ";".data

/-- `DROP TABLE IF EXISTS \`db\`.\`t\`;`. -/
def dropTableSQL (dbName tableName : String) : List Char :=
  "DROP TABLE IF EXISTS `".data ++ dbName.data ++ "`.`".data ++ tableName.data ++ "`;".data

/-- A table found in the live database but absent from the registry: its FK
constraint names (as iterated) and whether it is empty. -/
structure UnknownTable where
  pool : String
  dbName : String
  name : String
  fkNames : List String
  isEmpty : Bool
deriving Repr, DecidableEq

/-- The `for tableName := range tables` loop of `getAlters` over unknown
tables: a `Safe` drop-foreign-keys alter when the table has foreign keys,
then the `DROP TABLE IF EXISTS` alter, `Safe` iff the table is empty. -/
def collectUnknownTableAlters (uts : List UnknownTable) : List Alter :=
  (uts.map (fun ut =>
    (if ut.fkNames.isEmpty then []
     else [⟨dropForeignKeysAlterSQL ut.dbName ut.name ut.fkNames, true, ut.pool⟩])
    ++ [⟨dropTableSQL ut.dbName ut.name, ut.isEmpty, ut.pool⟩])).flatten

/-- `getAlters`: per-entity schema-change alters (collected upstream) plus
the unknown-table drops, run through the ordering stage. -/
def getAltersModel (entityAlters : List Alter) (uts : List UnknownTable) : List Alter :=
  sortAlters (entityAlters ++ collectUnknownTableAlters uts)

/-- C3 counterexample: the claim orders the `DROP FOREIGN KEY` statements
"shortest SQL first", but `getAlters` sorts only the *other* statements by
length and keeps drop-foreign-keys in emission order.  Two unregistered
tables with foreign keys, with the longer-named table iterated first (Go map
iteration order is unspecified, so this order is a possible run), yield a
planner output whose first two alters are both drop-foreign-keys with the
*longer* SQL first. -/
theorem C3_counterexample :
    hasDropForeignKey
      ((getAltersModel []
        [⟨"default", "db", "averyveryverylongtablename", ["fk1"], true⟩,
         ⟨"default", "db", "t", ["fk2"], true⟩]).getD 0 ⟨[], false, ""⟩) = true
    ∧ hasDropForeignKey
      ((getAltersModel []
        [⟨"default", "db", "averyveryverylongtablename", ["fk1"], true⟩,
         ⟨"default", "db", "t", ["fk2"], true⟩]).getD 1 ⟨[], false, ""⟩) = true
    ∧ ((getAltersModel []
        [⟨"default", "db", "averyveryverylongtablename", ["fk1"], true⟩,
         ⟨"default", "db", "t", ["fk2"], true⟩]).getD 0 ⟨[], false, ""⟩).SQL.length
      > ((getAltersModel []
        [⟨"default", "db", "averyveryverylongtablename", ["fk1"], true⟩,
         ⟨"default", "db", "t", ["fk2"], true⟩]).getD 1 ⟨[], false, ""⟩).SQL.length := by
  refine ⟨by decide, by decide, by decide⟩

/-- C3 (amended): in any output of the migration planner, all
`DROP FOREIGN KEY` statements come first *in emission order* (they are not
re-sorted by length), then all other statements sorted by SQL length
ascending (a permutation of the collected others), then all
`ADD CONSTRAINT` statements last in emission order. -/
theorem C3_planner_order_amended (entityAlters : List Alter) (uts : List UnknownTable) :
    getAltersModel entityAlters uts
      = (entityAlters ++ collectUnknownTableAlters uts).filter
          (fun a => hasDropForeignKey a)
        ++ sortByLen ((entityAlters ++ collectUnknownTableAlters uts).filter
          (fun a => !hasDropForeignKey a && !hasAddConstraint a))
        ++ (entityAlters ++ collectUnknownTableAlters uts).filter
          (fun a => hasAddConstraint a)
    ∧ List.Sorted lenLE
        (sortByLen ((entityAlters ++ collectUnknownTableAlters uts).filter
          (fun a => !hasDropForeignKey a && !hasAddConstraint a)))
    ∧ (sortByLen ((entityAlters ++ collectUnknownTableAlters uts).filter
          (fun a => !hasDropForeignKey a && !hasAddConstraint a))).Perm
        ((entityAlters ++ collectUnknownTableAlters uts).filter
          (fun a => !hasDropForeignKey a && !hasAddConstraint a)) :=
  ⟨rfl, List.sorted_insertionSort lenLE _, List.perm_insertionSort lenLE _⟩

/-! ## Schema diff safety flags (`getSchemaChanges`, assembly stage)

`getSchemaChanges` diffs the declared schema against the live table and then
assembles up to three `Alter`s out of the diff lists (lines 420–523): one
"normal" `ALTER TABLE` covering dropped/added/changed columns and
dropped/added indexes, one drop-foreign-keys alter, and one
add-foreign-keys alter.  The diff lists (already rendered to SQL fragments
upstream) plus the table-empty flag are the inputs of this stage.  The
`Safe` flag of the normal alter is `true` iff no column is dropped and no
column is changed, and otherwise equals the table-empty check; both
foreign-key alters are always `Safe`.  `hasAlterNormal` is set by every loop
that feeds `newAlters` and again by the rendering loops whenever `newAlters`
is non-empty, so it equals `newAlters ≠ []`. -/

/-- Lexicographic order on strings (Go `sort.Strings`). -/
def strLeb : List Char → List Char → Bool
  | [], _ => true
  | _ :: _, [] => false
  | a :: as, b :: bs => if a == b then strLeb as bs else decide (a < b)

/-- The order as a decidable relation for the sort. -/
def strLeProp (x y : List Char) : Prop := strLeb x y = true

instance : DecidableRel strLeProp := fun x y =>
  inferInstanceAs (Decidable (strLeb x y = true))

/-- `sort.Strings`. -/
def sortStrings (l : List (List Char)) : List (List Char) := l.insertionSort strLeProp

/-- Rendering of the normal alter's body: every entry but the last is
`item,` plus an optional `/*comment*/` plus a newline; the last entry is
`item;` plus its optional comment. -/
def renderNormalBody : List (List Char × List Char) → List Char
  | [] => []
  | [(item, comment)] =>
    item ++ ";".data ++ (if comment.isEmpty then [] else "/*".data ++ comment ++ "*/".data)
  | (item, comment) :: rest =>
    item ++ ",".data ++ (if comment.isEmpty then [] else "/*".data ++ comment ++ "*/".data)
      ++ "\n".data ++ renderNormalBody rest

/-- Rendering of a foreign-key alter: each clause followed by `,\n`, the
trailing `",\n"` trimmed, terminated by `;`. -/
def renderFKAlter (header : List Char) (items : List (List Char)) : List Char :=
  trimRightCutset [',', '\n'] (header ++ (items.map (fun v => v ++ ",\n".data)).flatten)
    ++ ";".data

/-- The assembly stage of `getSchemaChanges` for an existing table: inputs
are the rendered diff lists and the emptiness of the live table. -/
def assembleAlters (dbName tableName pool : String)
    (droppedColumns newColumns : List (List Char))
    (changedColumns : List (List Char × List Char))
    (droppedIndexes newIndexes droppedForeignKeys newForeignKeys : List (List Char))
    (isEmpty : Bool) : List Alter :=
  if droppedColumns.isEmpty && newColumns.isEmpty && changedColumns.isEmpty
      && droppedIndexes.isEmpty && newIndexes.isEmpty
      && droppedForeignKeys.isEmpty && newForeignKeys.isEmpty then []
  else
    let header := "ALTER TABLE `".data ++ dbName.data ++ "`.`".data
      ++ tableName.data ++ "`\n".data
    let indent := "    ".data
    let newAlters :=
      droppedColumns.map (fun v => (indent ++ v, ([] : List Char)))
      ++ newColumns.map (fun v => (indent ++ v, ([] : List Char)))
      ++ changedColumns.map (fun p => (indent ++ p.1, p.2))
      ++ (sortStrings droppedIndexes).map (fun v => (indent ++ v, ([] : List Char)))
      ++ (sortStrings newIndexes).map (fun v => (indent ++ v, ([] : List Char)))
    let removeFKItems := (sortStrings droppedForeignKeys).map (fun v => indent ++ v)
    let addFKItems := (sortStrings newForeignKeys).map (fun v => indent ++ v)
    let safe := if droppedColumns.isEmpty && changedColumns.isEmpty then true else isEmpty
    (if newAlters.isEmpty then []
     else [⟨header ++ renderNormalBody newAlters, safe, pool⟩])
    ++ (if removeFKItems.isEmpty then []
        else [⟨renderFKAlter header removeFKItems, true, pool⟩])
    ++ (if addFKItems.isEmpty then []
        else [⟨renderFKAlter header addFKItems, true, pool⟩])

/-- Substring test. -/
def containsSub (pat s : List Char) : Bool := (strIndexChars pat s).isSome

/-- The claim's safety predicate, written from the claim's words: `Safe`
should hold iff the alter adds only nullable columns, or only adds indexes
or foreign keys, or is issued against an empty table. -/
def safeSpecC4 (droppedColumns newColumns : List (List Char))
    (changedColumns : List (List Char × List Char))
    (droppedIndexes newIndexes droppedForeignKeys newForeignKeys : List (List Char))
    (isEmpty : Bool) : Bool :=
  (droppedColumns.isEmpty && changedColumns.isEmpty && droppedIndexes.isEmpty
    && droppedForeignKeys.isEmpty && newIndexes.isEmpty && newForeignKeys.isEmpty
    && !newColumns.isEmpty && newColumns.all (fun c => !containsSub "NOT NULL".data c))
  || (droppedColumns.isEmpty && newColumns.isEmpty && changedColumns.isEmpty
    && droppedIndexes.isEmpty && droppedForeignKeys.isEmpty
    && (!newIndexes.isEmpty || !newForeignKeys.isEmpty))
  || isEmpty

theorem assembleAlters_safe_mem (dbName tableName pool : String)
    (droppedColumns newColumns : List (List Char))
    (changedColumns : List (List Char × List Char))
    (droppedIndexes newIndexes droppedForeignKeys newForeignKeys : List (List Char))
    (isEmpty : Bool) :
    ∀ a ∈ assembleAlters dbName tableName pool droppedColumns newColumns changedColumns
        droppedIndexes newIndexes droppedForeignKeys newForeignKeys isEmpty,
      a.Safe = true
      ∨ a.Safe = (if droppedColumns.isEmpty && changedColumns.isEmpty
                  then true else isEmpty) := by
  intro a ha
  unfold assembleAlters at ha
  split at ha
  · simp at ha
  · simp only [List.mem_append] at ha
    rcases ha with (ha | ha) | ha
    · split at ha
      · simp at ha
      · rw [List.mem_singleton] at ha
        subst ha
        exact Or.inr rfl
    · split at ha
      · simp at ha
      · rw [List.mem_singleton] at ha
        subst ha
        exact Or.inl rfl
    · split at ha
      · simp at ha
      · rw [List.mem_singleton] at ha
        subst ha
        exact Or.inl rfl

end Spec2Proof
